import Mathlib

/-!
Verification of the CreditSphere Virtual Credit Manager (VCM) against its
natural-language specification.

The repository ships the frontend (Next.js/TypeScript) of the system; the
backend allocation engine (`app/services/vcm_service.py`, exposed as
`POST /vcm/allocate`) is referenced by the frontend and the design documents
but its source is not part of the material.  Definitions below therefore come
from two places:

* frontend functions are embedded directly from the TypeScript source
  (`src/unnamed/part_014` — the allocation calculator, `src/unnamed/part_005`
  — the dashboard, `src/components/vcm/*.tsx` — the VCM widgets,
  `src/types/api.ts` — the shared types);
* the allocation engine itself is modelled from the specification
  (sections 3, 4.3, 4.4 and 7 of the spec); each such definition carries a
  doc comment starting with `Modelled from the spec:`.

Money is represented by exact rationals (`ℚ`), standing for the decimal
fixed-point values the spec mandates; round-half-up to cents is explicit.
-/

namespace VCM

/-- Health buckets, embedded from the `HealthStatus` union type in
`src/types/api.ts` (line 96). -/
inductive HealthStatus where
  | underutilized
  | optimal
  | elevated
  | high
deriving DecidableEq, Repr

/-- Modelled from the spec: `UtilizationClassifier.classify` (spec §4.1) is not
in the shipped source (it lives in the absent backend); boundaries are
`<10%` underutilized, `10–30%` optimal, `30–50%` elevated, `>50%` high, total
on all inputs. -/
def classify (u : ℚ) : HealthStatus :=
  if u < 10 then .underutilized
  else if u ≤ 30 then .optimal
  else if u ≤ 50 then .elevated
  else .high

/-- Embedded from `getUtilizationColor` in `src/unnamed/part_014`
(lines 77–81): the frontend colour for a utilization percentage. -/
def getUtilizationColor (u : ℚ) : String :=
  if u ≤ 30 then "text-green-600 dark:text-green-400"
  else if u ≤ 50 then "text-yellow-600 dark:text-yellow-400"
  else "text-red-600 dark:text-red-400"

/-- Outcome of the frontend calculator's button handler. -/
inductive FrontendOutcome where
  | invalidAmountError
  | exceedsCreditError
  | requestPlan (amount : ℚ)
deriving DecidableEq, Repr

/-- Embedded from `handleCalculate` in `src/unnamed/part_014` (lines 51–75):
`parseFloat` of the input is modelled as `Option ℚ` (`none` = `NaN`); the
handler rejects `NaN` and non-positive amounts with the `invalidAmount`
message, rejects amounts above `totalAvailableCredit` with the
`exceedsCredit` message, and otherwise posts the amount to `vcm/allocate`. -/
def handleCalculate (parsed : Option ℚ) (totalAvailableCredit : ℚ) :
    FrontendOutcome :=
  match parsed with
  | none => .invalidAmountError
  | some a =>
    if a ≤ 0 then .invalidAmountError
    else if totalAvailableCredit < a then .exceedsCreditError
    else .requestPlan a

/-- Embedded from `formatPercent` in `src/unnamed/part_005` (lines 41–44):
the numeric value the dashboard renders, `Math.max(0, Math.min(100, value))`. -/
def formatPercentValue (value : ℚ) : ℚ := max 0 (min 100 value)

/-- Embedded from `src/components/vcm/virtual-credit-card.tsx` (line 114):
the pool progress-bar width, `Math.min(utilizationPercentage, 100)`. -/
def virtualCardBarWidth (utilizationPercentage : ℚ) : ℚ :=
  min utilizationPercentage 100

/-- Embedded from `src/components/vcm/card-list.tsx` (line 129):
the per-card progress-bar width, `Math.min(card.utilization_rate, 100)`. -/
def cardListBarWidth (utilization_rate : ℚ) : ℚ :=
  min utilization_rate 100

/-- Embedded from `src/components/vcm/card-list.tsx` (line 86): the numeric
utilization value rendered as the text label
`{card.utilization_rate.toFixed(1)}%` — passed to display with no clamping. -/
def cardListUtilizationLabel (utilization_rate : ℚ) : ℚ := utilization_rate

/-- Modelled from the spec: the `CreditLine` snapshot record (spec §3); the
engine source holding it is absent.  Field names follow the spec and the
frontend `CardSummary` type in `src/types/api.ts`. -/
structure Card where
  id : ℕ
  issuer : String
  product : String
  last4 : Option String
  credit_limit : ℚ
  current_balance : ℚ
  enrolled : Bool
deriving DecidableEq, Repr

/-- Modelled from the spec: utilization = balance / limit × 100, defined as 0
when the limit is 0 (spec §3). -/
def utilization (c : Card) : ℚ :=
  if c.credit_limit = 0 then 0 else c.current_balance / c.credit_limit * 100

/-- Modelled from the spec: the planner's candidate order (spec §4.3 step 2) —
credit limit descending, then current utilization ascending, then card id
ascending as the final deterministic tiebreak. -/
def cardBefore (a b : Card) : Prop :=
  b.credit_limit < a.credit_limit ∨
    (a.credit_limit = b.credit_limit ∧
      (utilization a < utilization b ∨
        (utilization a = utilization b ∧ a.id ≤ b.id)))

instance : DecidableRel cardBefore := fun a b => by
  unfold cardBefore; infer_instance

instance : IsTotal Card cardBefore where
  total a b := by
    unfold cardBefore
    rcases lt_trichotomy a.credit_limit b.credit_limit with h | h | h
    · exact Or.inr (Or.inl h)
    · rcases lt_trichotomy (utilization a) (utilization b) with hu | hu | hu
      · exact Or.inl (Or.inr ⟨h, Or.inl hu⟩)
      · rcases Nat.le_total a.id b.id with hi | hi
        · exact Or.inl (Or.inr ⟨h, Or.inr ⟨hu, hi⟩⟩)
        · exact Or.inr (Or.inr ⟨h.symm, Or.inr ⟨hu.symm, hi⟩⟩)
      · exact Or.inr (Or.inr ⟨h.symm, Or.inl hu⟩)
    · exact Or.inl (Or.inl h)

instance : IsTrans Card cardBefore where
  trans a b c hab hbc := by
    unfold cardBefore at hab hbc ⊢
    rcases hab with h₁ | ⟨e₁, h₁⟩ <;> rcases hbc with h₂ | ⟨e₂, h₂⟩
    · exact Or.inl (by linarith)
    · exact Or.inl (by rw [← e₂]; exact h₁)
    · exact Or.inl (by rw [e₁]; exact h₂)
    · refine Or.inr ⟨e₁.trans e₂, ?_⟩
      rcases h₁ with hu₁ | ⟨hu₁, hi₁⟩ <;> rcases h₂ with hu₂ | ⟨hu₂, hi₂⟩
      · exact Or.inl (by linarith)
      · exact Or.inl (by rw [← hu₂]; exact hu₁)
      · exact Or.inl (by rw [hu₁]; exact hu₂)
      · exact Or.inr ⟨hu₁.trans hu₂, hi₁.trans hi₂⟩

/-- Modelled from the spec: step 1 of the planner — keep enrolled cards with a
positive credit limit (spec §4.3 step 1). -/
def eligible (cards : List Card) : List Card :=
  cards.filter fun c => c.enrolled && decide (0 < c.credit_limit)

/-- Modelled from the spec: step 2 of the planner — sort the candidates by
`cardBefore` (spec §4.3 step 2). -/
def sortCandidates (cards : List Card) : List Card :=
  (eligible cards).insertionSort cardBefore

/-- Modelled from the spec: headroom up to a band boundary,
`max(0, ratio × credit_limit − balance)` clamped to the actual available
credit `credit_limit − balance` (spec §4.3 steps 3–4). -/
def bandHeadroom (ratio L B : ℚ) : ℚ :=
  max 0 (min (ratio * L - B) (L - B))

/-- Modelled from the spec: one greedy pass of the planner (spec §4.3
steps 3–4).  Input is the sorted list of cards paired with their balance at
the start of the pass and the remaining amount; each card receives
`min(remaining, bandHeadroom)`.  Output records, per card, the balance at the
step and the amount allocated, together with the remaining amount. -/
def allocPass (ratio : ℚ) : List (Card × ℚ) → ℚ → List (Card × ℚ × ℚ) × ℚ
  | [], r => ([], r)
  | (c, b) :: rest, r =>
    let a := min r (bandHeadroom ratio c.credit_limit b)
    let p := allocPass ratio rest (r - a)
    ((c, b, a) :: p.1, p.2)

/-- Total band headroom of a pass input: the sum, over the (card, balance)
pairs, of the band headroom available to each card. -/
def passCaps (ratio : ℚ) (l : List (Card × ℚ)) : ℚ :=
  (l.map fun p => bandHeadroom ratio p.1.credit_limit p.2).sum

/-- Modelled from the spec: pass 1, the optimal band (target 30%), run over
the sorted candidates at their snapshot balances (spec §4.3 step 3). -/
def pass1 (cards : List Card) (amount : ℚ) : List (Card × ℚ × ℚ) × ℚ :=
  allocPass (3/10) ((sortCandidates cards).map fun c => (c, c.current_balance))
    amount

/-- Modelled from the spec: pass 2, the elevated band (boundary 50%), run over
the same cards with balances updated by pass 1 (spec §4.3 step 4). -/
def pass2 (cards : List Card) (amount : ℚ) : List (Card × ℚ × ℚ) × ℚ :=
  allocPass (1/2) ((pass1 cards amount).1.map fun s => (s.1, s.2.1 + s.2.2))
    (pass1 cards amount).2

/-- Modelled from the spec: a card's headroom up to the 50% band, clamped to
available credit — what the spec calls the reachable headroom of a card across
both bands (spec §4.3 step 5, §8). -/
def twoBandHeadroom (c : Card) : ℚ :=
  bandHeadroom (1/2) c.credit_limit c.current_balance

/-- Modelled from the spec: the total reachable headroom across both bands,
summed over the eligible cards (spec §4.3 step 5, §8). -/
def totalTwoBandHeadroom (cards : List Card) : ℚ :=
  ((eligible cards).map twoBandHeadroom).sum

/-- Modelled from the spec: the semantic content of the warning strings the
engine emits (spec §4.3 steps 1, 4, 5 and §7). -/
inductive Warning where
  | skippedZeroLimit (card_id : ℕ)
  | exceedsOptimal
  | shortfall (amount : ℚ)
  | noEligibleCards
deriving DecidableEq, Repr

/-- Modelled from the spec: a raw planner step — the card, its balance when
the step was taken, the (exact, unrounded) amount, and whether the step
belongs to the elevated band (spec §3, §4.3). -/
structure RawStep where
  card : Card
  balance_before : ℚ
  amount : ℚ
  elevated : Bool
deriving DecidableEq, Repr

/-- Modelled from the spec: the raw plan produced by the planner before the
explainer decorates it (spec §3, §4.3). -/
structure RawPlan where
  requested_amount : ℚ
  feasible : Bool
  steps : List RawStep
  total_allocated : ℚ
  warnings : List Warning
deriving DecidableEq, Repr

/-- Modelled from the spec: the planner `allocate` body for a positive amount
(spec §4.3 steps 1–5): filter and sort, run pass 1 then pass 2, keep the
steps that allocate a positive amount, mark feasibility, and emit the
warnings — zero-limit cards skipped, elevated-band spill, exact shortfall
`requested − total_allocated` when infeasible, and the no-eligible-cards
case. -/
def planRaw (cards : List Card) (amount : ℚ) : RawPlan :=
  let p1 := pass1 cards amount
  let p2 := pass2 cards amount
  let steps1 := (p1.1.filter fun s => decide (0 < s.2.2)).map
    fun s => RawStep.mk s.1 s.2.1 s.2.2 false
  let steps2 := (p2.1.filter fun s => decide (0 < s.2.2)).map
    fun s => RawStep.mk s.1 s.2.1 s.2.2 true
  { requested_amount := amount
    feasible := decide (p2.2 ≤ 0)
    steps := steps1 ++ steps2
    total_allocated := amount - p2.2
    warnings :=
      ((cards.filter fun c => c.enrolled && decide (c.credit_limit = 0)).map
        fun c => Warning.skippedZeroLimit c.id)
      ++ (if sortCandidates cards = [] then [Warning.noEligibleCards] else [])
      ++ (if steps2 = [] then [] else [Warning.exceedsOptimal])
      ++ (if 0 < p2.2 then [Warning.shortfall p2.2] else []) }

/-- Modelled from the spec: round-half-up to 2 decimal places, the explainer's
rounding of monetary figures (spec §4.4). -/
def roundMoney (q : ℚ) : ℚ := ((⌊q * 100 + 1/2⌋ : ℤ) : ℚ) / 100

/-- Modelled from the spec: a step's rationale (spec §4.3 steps 3–4). -/
inductive Reason where
  | withinOptimalBand
  | exceedsOptimalBand
deriving DecidableEq, Repr

/-- Public allocation step, embedded from the `AllocationStep` interface in
`src/unnamed/part_014` (lines 18–28); the numeric fields are produced by the
spec-modelled explainer. -/
structure AllocationStep where
  card_id : ℕ
  issuer : String
  product : String
  last4 : Option String
  amount_to_charge : ℚ
  current_utilization : ℚ
  new_utilization : ℚ
  available_credit : ℚ
  reason : Reason
deriving DecidableEq, Repr

/-- Modelled from the spec: the `optimization_summary` sentence content —
total allocated, number of cards touched, whether the plan stayed fully
within the optimal band (spec §4.4). -/
structure OptSummary where
  total : ℚ
  cards_touched : ℕ
  fully_optimal : Bool
deriving DecidableEq, Repr

/-- Public allocation plan, embedded from the `AllocationResponse` interface
in `src/unnamed/part_014` (lines 30–37) and the spec's `AllocationPlan`
(spec §3). -/
structure AllocationPlan where
  requested_amount : ℚ
  feasible : Bool
  steps : List AllocationStep
  total_allocated : ℚ
  optimization_summary : OptSummary
  warnings : List Warning
deriving DecidableEq, Repr

/-- Modelled from the spec: the explainer's decoration of one raw step —
monetary figures rounded half-up to cents, utilizations before and after,
rationale from the band (spec §3, §4.4). -/
def explainStep (s : RawStep) : AllocationStep :=
  { card_id := s.card.id
    issuer := s.card.issuer
    product := s.card.product
    last4 := s.card.last4
    amount_to_charge := roundMoney s.amount
    current_utilization :=
      if s.card.credit_limit = 0 then 0
      else s.balance_before / s.card.credit_limit * 100
    new_utilization :=
      if s.card.credit_limit = 0 then 0
      else (s.balance_before + s.amount) / s.card.credit_limit * 100
    available_credit := roundMoney (s.card.credit_limit - s.balance_before)
    reason := if s.elevated then .exceedsOptimalBand else .withinOptimalBand }

/-- Modelled from the spec: the `PlanExplainer` — rounds the monetary figures
of the plan to 2 decimal places half-up, builds the summary, preserves the
planner's step order and warnings (spec §4.4). -/
def explain (p : RawPlan) : AllocationPlan :=
  { requested_amount := p.requested_amount
    feasible := p.feasible
    steps := p.steps.map explainStep
    total_allocated := roundMoney p.total_allocated
    optimization_summary :=
      { total := roundMoney p.total_allocated
        cards_touched := ((p.steps.map fun s => s.card.id).dedup).length
        fully_optimal := p.steps.all fun s => !s.elevated }
    warnings := p.warnings }

/-- Modelled from the spec: the `InvalidAmount` validation failure
(spec §4.3 preconditions, §7). -/
inductive AllocError where
  | invalidAmount
deriving DecidableEq, Repr

/-- Modelled from the spec: `allocate(cards, requested_amount)` — a
non-positive amount is rejected before any computation; otherwise the planner
runs and the explainer decorates the plan (spec §4.3, §4.4, §7). -/
def allocate (cards : List Card) (amount : ℚ) :
    Except AllocError AllocationPlan :=
  if amount ≤ 0 then .error .invalidAmount
  else .ok (explain (planRaw cards amount))

/-- Concrete card: limit 10,000 at 0% utilization (spec §8, priority test). -/
def prioCardBig : Card := ⟨1, "IssuerA", "ProductA", none, 10000, 0, true⟩

/-- Concrete card: limit 5,000 at 0% utilization (spec §8, priority test). -/
def prioCardSmall : Card := ⟨2, "IssuerB", "ProductB", none, 5000, 0, true⟩

/-- Concrete card: limit 10,000, balance 1,000 (spec §8, concrete scenario). -/
def scenCardA : Card := ⟨1, "IssuerA", "ProductA", none, 10000, 1000, true⟩

/-- Concrete card: limit 5,000, balance 500 (spec §8, concrete scenario). -/
def scenCardB : Card := ⟨2, "IssuerB", "ProductB", none, 5000, 500, true⟩

/-- Concrete card with a fractional-cent optimal-band boundary: limit
$100.05, balance $0.01, so the pass-1 headroom is $30.005, half a cent. -/
def fracCardA : Card := ⟨1, "IssuerA", "ProductA", none, 2001/20, 1/100, true⟩

/-- Concrete card: limit $50, balance $0. -/
def fracCardB : Card := ⟨2, "IssuerB", "ProductB", none, 50, 0, true⟩

/-- Concrete card already at 50% utilization: limit 2,000, balance 1,000. -/
def overCardA : Card := ⟨1, "IssuerA", "ProductA", none, 2000, 1000, true⟩

/-- Concrete card already at 50% utilization: limit 2,000, balance 1,000,
distinct id. -/
def overCardB : Card := ⟨2, "IssuerB", "ProductB", none, 2000, 1000, true⟩

lemma bandHeadroom_nonneg (ratio L B : ℚ) : 0 ≤ bandHeadroom ratio L B :=
  le_max_left 0 _

lemma bandHeadroom_mono_ratio {r₁ r₂ : ℚ} (L B : ℚ) (h : r₁ ≤ r₂) (hL : 0 ≤ L) :
    bandHeadroom r₁ L B ≤ bandHeadroom r₂ L B := by
  unfold bandHeadroom
  have hm : r₁ * L ≤ r₂ * L := mul_le_mul_of_nonneg_right h hL
  exact max_le_max le_rfl (min_le_min (by linarith) le_rfl)

lemma bandHeadroom_pos_bound {ratio L B a : ℚ} (ha : 0 < a)
    (hle : a ≤ bandHeadroom ratio L B) : B + a ≤ ratio * L := by
  unfold bandHeadroom at hle
  rcases le_total (min (ratio * L - B) (L - B)) 0 with h | h
  · rw [max_eq_left h] at hle; linarith
  · rw [max_eq_right h] at hle
    have := min_le_left (ratio * L - B) (L - B)
    linarith

lemma caps_nonneg (ratio : ℚ) (l : List (Card × ℚ)) : 0 ≤ passCaps ratio l := by
  apply List.sum_nonneg
  intro x hx
  obtain ⟨p, _, rfl⟩ := List.mem_map.mp hx
  exact bandHeadroom_nonneg _ _ _

lemma allocPass_fst_map (ratio : ℚ) (l : List (Card × ℚ)) (r : ℚ) :
    (allocPass ratio l r).1.map (fun s => (s.1, s.2.1)) = l := by
  induction l generalizing r with
  | nil => simp [allocPass]
  | cons p rest ih =>
    obtain ⟨c, b⟩ := p
    simp [allocPass, ih]

lemma allocPass_pairs_mem {ratio : ℚ} {l : List (Card × ℚ)} {r : ℚ}
    {s : Card × ℚ × ℚ} (hs : s ∈ (allocPass ratio l r).1) : (s.1, s.2.1) ∈ l := by
  rw [← allocPass_fst_map ratio l r]
  exact List.mem_map_of_mem _ hs

lemma allocPass_amount_bounds (ratio : ℚ) (l : List (Card × ℚ)) (r : ℚ)
    (hr : 0 ≤ r) : ∀ s ∈ (allocPass ratio l r).1,
      0 ≤ s.2.2 ∧ s.2.2 ≤ bandHeadroom ratio s.1.credit_limit s.2.1 := by
  induction l generalizing r with
  | nil => simp [allocPass]
  | cons p rest ih =>
    obtain ⟨c, b⟩ := p
    intro s hs
    simp only [allocPass, List.mem_cons] at hs
    rcases hs with rfl | hs
    · exact ⟨le_min hr (bandHeadroom_nonneg _ _ _), min_le_right _ _⟩
    · have hr' : 0 ≤ r - min r (bandHeadroom ratio c.credit_limit b) := by
        have := min_le_left r (bandHeadroom ratio c.credit_limit b)
        linarith
      exact ih _ hr' s hs

lemma allocPass_sum_add_snd (ratio : ℚ) (l : List (Card × ℚ)) (r : ℚ) :
    ((allocPass ratio l r).1.map fun s => s.2.2).sum + (allocPass ratio l r).2
      = r := by
  induction l generalizing r with
  | nil => simp [allocPass]
  | cons p rest ih =>
    obtain ⟨c, b⟩ := p
    have h := ih (r - min r (bandHeadroom ratio c.credit_limit b))
    simp only [allocPass, List.map_cons, List.sum_cons]
    linarith

lemma allocPass_snd_eq (ratio : ℚ) (l : List (Card × ℚ)) :
    ∀ r : ℚ, 0 ≤ r →
      (allocPass ratio l r).2 = r - min r (passCaps ratio l) := by
  induction l with
  | nil =>
    intro r hr
    simp [allocPass, passCaps, min_eq_right hr]
  | cons p rest ih =>
    intro r hr
    obtain ⟨c, b⟩ := p
    have hcap : 0 ≤ bandHeadroom ratio c.credit_limit b :=
      bandHeadroom_nonneg _ _ _
    have hS : 0 ≤ passCaps ratio rest := caps_nonneg _ _
    have hma : min r (bandHeadroom ratio c.credit_limit b) ≤ r := min_le_left _ _
    have hstep : (allocPass ratio ((c, b) :: rest) r).2
        = (allocPass ratio rest (r - min r (bandHeadroom ratio c.credit_limit b))).2 := by
      simp [allocPass]
    rw [hstep, ih _ (by linarith)]
    have hcaps : passCaps ratio ((c, b) :: rest)
        = bandHeadroom ratio c.credit_limit b + passCaps ratio rest := by
      simp [passCaps]
    rw [hcaps]
    rcases le_total r (bandHeadroom ratio c.credit_limit b) with h1 | h1
    · rw [min_eq_left h1, min_eq_left (by linarith : r ≤ bandHeadroom ratio c.credit_limit b + passCaps ratio rest)]
      rw [sub_self]
      rw [min_eq_left hS]
      ring
    · rw [min_eq_right h1]
      rcases le_total (r - bandHeadroom ratio c.credit_limit b) (passCaps ratio rest) with h2 | h2
      · rw [min_eq_left h2, min_eq_left (by linarith : r ≤ bandHeadroom ratio c.credit_limit b + passCaps ratio rest)]
        ring
      · rw [min_eq_right h2, min_eq_right (by linarith : bandHeadroom ratio c.credit_limit b + passCaps ratio rest ≤ r)]
        ring

lemma allocPass_snd_nonneg (ratio : ℚ) (l : List (Card × ℚ)) (r : ℚ)
    (hr : 0 ≤ r) : 0 ≤ (allocPass ratio l r).2 := by
  rw [allocPass_snd_eq ratio l r hr]
  have := min_le_left r (passCaps ratio l)
  linarith

lemma allocPass_sum_eq (ratio : ℚ) (l : List (Card × ℚ)) (r : ℚ) (hr : 0 ≤ r) :
    ((allocPass ratio l r).1.map fun s => s.2.2).sum = min r (passCaps ratio l) := by
  have h1 := allocPass_sum_add_snd ratio l r
  have h2 := allocPass_snd_eq ratio l r hr
  linarith

lemma allocPass_saturated (ratio : ℚ) (l : List (Card × ℚ)) :
    ∀ r : ℚ, passCaps ratio l ≤ r →
      ∀ s ∈ (allocPass ratio l r).1,
        s.2.2 = bandHeadroom ratio s.1.credit_limit s.2.1 := by
  induction l with
  | nil => intro r _ s hs; simp [allocPass] at hs
  | cons p rest ih =>
    intro r hcaps s hs
    obtain ⟨c, b⟩ := p
    have hS : 0 ≤ passCaps ratio rest := caps_nonneg _ _
    have hcaps' : passCaps ratio ((c, b) :: rest)
        = bandHeadroom ratio c.credit_limit b + passCaps ratio rest := by
      simp [passCaps]
    rw [hcaps'] at hcaps
    have hhead : min r (bandHeadroom ratio c.credit_limit b)
        = bandHeadroom ratio c.credit_limit b :=
      min_eq_right (by linarith)
    simp only [allocPass, List.mem_cons] at hs
    rcases hs with rfl | hs
    · exact hhead
    · rw [hhead] at hs
      exact ih _ (by linarith) s hs

lemma bandHeadroom_split {L B : ℚ} (hL : 0 < L) :
    bandHeadroom (1/2) L (B + bandHeadroom (3/10) L B)
      = bandHeadroom (1/2) L B - bandHeadroom (3/10) L B := by
  unfold bandHeadroom
  rw [min_eq_left (by linarith : (3:ℚ)/10 * L - B ≤ L - B),
    min_eq_left (by linarith : (1:ℚ)/2 * L - B ≤ L - B)]
  rcases le_total ((3:ℚ)/10 * L - B) 0 with h | h
  · rw [max_eq_left h]
    rw [min_eq_left (by linarith : (1:ℚ)/2 * L - (B + 0) ≤ L - (B + 0))]
    rw [show B + (0:ℚ) = B from by ring]
    ring
  · rw [max_eq_right h]
    rw [show B + ((3:ℚ)/10 * L - B) = 3/10 * L from by ring]
    rw [min_eq_left (by linarith : (1:ℚ)/2 * L - 3/10 * L ≤ L - 3/10 * L)]
    rw [max_eq_right (by linarith : (0:ℚ) ≤ 1/2 * L - 3/10 * L),
      max_eq_right (by linarith : (0:ℚ) ≤ 1/2 * L - B)]
    ring

lemma mem_eligible {cards : List Card} {c : Card} (hc : c ∈ eligible cards) :
    c ∈ cards ∧ c.enrolled = true ∧ 0 < c.credit_limit := by
  unfold eligible at hc
  rw [List.mem_filter] at hc
  have h2 := hc.2
  simp only [Bool.and_eq_true, decide_eq_true_eq] at h2
  exact ⟨hc.1, h2.1, h2.2⟩

lemma mem_sortCandidates {cards : List Card} {c : Card}
    (hc : c ∈ sortCandidates cards) : c ∈ eligible cards := by
  unfold sortCandidates at hc
  rwa [List.mem_insertionSort] at hc

lemma mem_pairs {cards : List Card} {p : Card × ℚ}
    (hp : p ∈ (sortCandidates cards).map fun c => (c, c.current_balance)) :
    p.1 ∈ sortCandidates cards ∧ p.2 = p.1.current_balance := by
  rw [List.mem_map] at hp
  obtain ⟨c, hc, rfl⟩ := hp
  exact ⟨hc, rfl⟩

lemma sum_map_sub {α : Type} (l : List α) (f g : α → ℚ) :
    (l.map fun x => f x - g x).sum = (l.map f).sum - (l.map g).sum := by
  induction l with
  | nil => simp
  | cons x xs ih =>
    simp only [List.map_cons, List.sum_cons, ih]
    ring

lemma pairs_caps (ratio : ℚ) (cards : List Card) :
    passCaps ratio ((sortCandidates cards).map fun c => (c, c.current_balance))
      = ((eligible cards).map
          fun c => bandHeadroom ratio c.credit_limit c.current_balance).sum := by
  unfold passCaps
  rw [List.map_map]
  have hperm : List.Perm (sortCandidates cards) (eligible cards) :=
    List.perm_insertionSort cardBefore (eligible cards)
  exact (hperm.map _).sum_eq

lemma out_caps_eq (ratio ρ : ℚ) (l : List (Card × ℚ)) (r : ℚ) :
    ((allocPass ratio l r).1.map
        fun s => bandHeadroom ρ s.1.credit_limit s.2.1).sum
      = passCaps ρ l := by
  unfold passCaps
  conv_rhs => rw [← allocPass_fst_map ratio l r]
  rw [List.map_map]
  rfl

lemma optBand_le_twoBand (cards : List Card) :
    ((eligible cards).map
        fun c => bandHeadroom (3/10) c.credit_limit c.current_balance).sum
      ≤ totalTwoBandHeadroom cards := by
  unfold totalTwoBandHeadroom
  apply List.sum_le_sum
  intro c hc
  have hL := (mem_eligible hc).2.2
  exact bandHeadroom_mono_ratio _ _ (by norm_num) hL.le

lemma totalTwoBandHeadroom_nonneg (cards : List Card) :
    0 ≤ totalTwoBandHeadroom cards := by
  unfold totalTwoBandHeadroom
  apply List.sum_nonneg
  intro x hx
  obtain ⟨c, _, rfl⟩ := List.mem_map.mp hx
  exact bandHeadroom_nonneg _ _ _

lemma pass1_snd_eq (cards : List Card) (A : ℚ) (hA : 0 ≤ A) :
    (pass1 cards A).2
      = A - min A (((eligible cards).map
          fun c => bandHeadroom (3/10) c.credit_limit c.current_balance).sum) := by
  unfold pass1
  rw [allocPass_snd_eq _ _ _ hA, pairs_caps]

lemma pass2_snd_eq (cards : List Card) (A : ℚ) (hA : 0 ≤ A) :
    (pass2 cards A).2 = A - min A (totalTwoBandHeadroom cards) := by
  have hC₁nn : 0 ≤ ((eligible cards).map
      fun c => bandHeadroom (3/10) c.credit_limit c.current_balance).sum := by
    apply List.sum_nonneg
    intro x hx
    obtain ⟨c, _, rfl⟩ := List.mem_map.mp hx
    exact bandHeadroom_nonneg _ _ _
  have hC₁H := optBand_le_twoBand cards
  have hr₁ := pass1_snd_eq cards A hA
  rcases le_total A (((eligible cards).map
      fun c => bandHeadroom (3/10) c.credit_limit c.current_balance).sum)
    with hA1 | hA1
  · have h0 : (pass1 cards A).2 = 0 := by
      rw [hr₁, min_eq_left hA1]; ring
    have h2 : (pass2 cards A).2 = 0 := by
      unfold pass2
      rw [h0, allocPass_snd_eq _ _ _ le_rfl,
        min_eq_left (caps_nonneg _ _)]
      ring
    rw [h2, min_eq_left (le_trans hA1 hC₁H)]
    ring
  · have hr₁' : (pass1 cards A).2
        = A - ((eligible cards).map
            fun c => bandHeadroom (3/10) c.credit_limit c.current_balance).sum := by
      rw [hr₁, min_eq_right hA1]
    have hsat : ∀ s ∈ (pass1 cards A).1,
        s.2.2 = bandHeadroom (3/10) s.1.credit_limit s.2.1 := by
      apply allocPass_saturated
      rw [pairs_caps]
      exact hA1
    have hcong : ∀ s ∈ (pass1 cards A).1,
        bandHeadroom (1/2) s.1.credit_limit (s.2.1 + s.2.2)
          = bandHeadroom (1/2) s.1.credit_limit s.2.1
            - bandHeadroom (3/10) s.1.credit_limit s.2.1 := by
      intro s hs
      have hpair : (s.1, s.2.1) ∈ (sortCandidates cards).map
          fun c => (c, c.current_balance) := allocPass_pairs_mem hs
      have hL : 0 < s.1.credit_limit :=
        (mem_eligible (mem_sortCandidates (mem_pairs hpair).1)).2.2
      rw [hsat s hs]
      exact bandHeadroom_split hL
    have hcaps₂ : passCaps (1/2)
        ((pass1 cards A).1.map fun s => (s.1, s.2.1 + s.2.2))
        = totalTwoBandHeadroom cards
          - ((eligible cards).map
              fun c => bandHeadroom (3/10) c.credit_limit c.current_balance).sum := by
      unfold passCaps
      rw [List.map_map]
      have he : ((pass1 cards A).1.map
          ((fun p : Card × ℚ => bandHeadroom (1/2) p.1.credit_limit p.2)
            ∘ fun s : Card × ℚ × ℚ => (s.1, s.2.1 + s.2.2)))
          = (pass1 cards A).1.map
            fun s => bandHeadroom (1/2) s.1.credit_limit s.2.1
              - bandHeadroom (3/10) s.1.credit_limit s.2.1 :=
        List.map_congr_left hcong
      rw [he, sum_map_sub]
      have e1 : ((pass1 cards A).1.map
          fun s => bandHeadroom (1/2) s.1.credit_limit s.2.1).sum
          = passCaps (1/2)
            ((sortCandidates cards).map fun c => (c, c.current_balance)) :=
        out_caps_eq _ _ _ _
      have e2 : ((pass1 cards A).1.map
          fun s => bandHeadroom (3/10) s.1.credit_limit s.2.1).sum
          = passCaps (3/10)
            ((sortCandidates cards).map fun c => (c, c.current_balance)) :=
        out_caps_eq _ _ _ _
      rw [e1, e2, pairs_caps, pairs_caps]
      have e3 : ((eligible cards).map
          fun c => bandHeadroom (1/2) c.credit_limit c.current_balance).sum
          = totalTwoBandHeadroom cards := rfl
      rw [e3]
    have hr₁nn : 0 ≤ (pass1 cards A).2 := by
      rw [hr₁']; linarith
    have h2 : (pass2 cards A).2
        = (pass1 cards A).2
          - min ((pass1 cards A).2)
              (passCaps (1/2)
                ((pass1 cards A).1.map fun s => (s.1, s.2.1 + s.2.2))) := by
      unfold pass2
      exact allocPass_snd_eq _ _ _ hr₁nn
    rw [h2, hcaps₂, hr₁']
    rcases le_total A (totalTwoBandHeadroom cards) with h | h
    · rw [min_eq_left h, min_eq_left (by linarith)]
      ring
    · rw [min_eq_right h, min_eq_right (by linarith)]
      ring

lemma planRaw_feasible_def (cards : List Card) (A : ℚ) :
    (planRaw cards A).feasible = decide ((pass2 cards A).2 ≤ 0) := rfl

lemma planRaw_total_def (cards : List Card) (A : ℚ) :
    (planRaw cards A).total_allocated = A - (pass2 cards A).2 := rfl

lemma planRaw_steps_def (cards : List Card) (A : ℚ) :
    (planRaw cards A).steps
      = (((pass1 cards A).1.filter fun s => decide (0 < s.2.2)).map
          fun s => RawStep.mk s.1 s.2.1 s.2.2 false)
        ++ ((pass2 cards A).1.filter fun s => decide (0 < s.2.2)).map
          fun s => RawStep.mk s.1 s.2.1 s.2.2 true := rfl

lemma explain_feasible (p : RawPlan) : (explain p).feasible = p.feasible := rfl

lemma explain_warnings (p : RawPlan) : (explain p).warnings = p.warnings := rfl

lemma explain_total (p : RawPlan) :
    (explain p).total_allocated = roundMoney p.total_allocated := rfl

lemma explain_steps (p : RawPlan) :
    (explain p).steps = p.steps.map explainStep := rfl

lemma allocate_ok {cards : List Card} {A : ℚ} (h : 0 < A) :
    allocate cards A = Except.ok (explain (planRaw cards A)) := by
  unfold allocate
  rw [if_neg (not_le.mpr h)]

lemma allocate_ok_inv {cards : List Card} {A : ℚ} {plan : AllocationPlan}
    (h : allocate cards A = Except.ok plan) :
    0 < A ∧ plan = explain (planRaw cards A) := by
  unfold allocate at h
  by_cases hA : A ≤ 0
  · rw [if_pos hA] at h
    exact absurd h (by simp)
  · rw [if_neg hA] at h
    exact ⟨not_le.mp hA, (Except.ok.inj h).symm⟩

lemma pass1_step_facts {cards : List Card} {A : ℚ} (hA : 0 ≤ A) :
    ∀ s ∈ (pass1 cards A).1,
      s.1 ∈ cards ∧ 0 < s.1.credit_limit ∧ s.2.1 = s.1.current_balance ∧
        0 ≤ s.2.2 ∧ s.2.2 ≤ bandHeadroom (3/10) s.1.credit_limit s.2.1 := by
  intro s hs
  have hp : (s.1, s.2.1) ∈ (sortCandidates cards).map
      fun c => (c, c.current_balance) := allocPass_pairs_mem hs
  obtain ⟨hmem, hbal⟩ := mem_pairs hp
  have he := mem_eligible (mem_sortCandidates hmem)
  have hb := allocPass_amount_bounds _ _ _ hA s hs
  exact ⟨he.1, he.2.2, hbal, hb.1, hb.2⟩

lemma pass2_step_facts {cards : List Card} {A : ℚ} (hA : 0 ≤ A) :
    ∀ s ∈ (pass2 cards A).1,
      s.1 ∈ cards ∧ 0 < s.1.credit_limit ∧ s.1.current_balance ≤ s.2.1 ∧
        0 ≤ s.2.2 ∧ s.2.2 ≤ bandHeadroom (1/2) s.1.credit_limit s.2.1 := by
  intro s hs
  have hr₁nn : 0 ≤ (pass1 cards A).2 := by
    unfold pass1
    exact allocPass_snd_nonneg _ _ _ hA
  have hp : (s.1, s.2.1) ∈ (pass1 cards A).1.map
      fun t => (t.1, t.2.1 + t.2.2) := allocPass_pairs_mem hs
  rw [List.mem_map] at hp
  obtain ⟨t, ht, hteq⟩ := hp
  obtain ⟨h1, h2⟩ := Prod.mk.injEq .. ▸ hteq
  have hf := pass1_step_facts hA t ht
  have hb := allocPass_amount_bounds _ _ _ hr₁nn s hs
  refine ⟨h1 ▸ hf.1, h1 ▸ hf.2.1, ?_, hb.1, hb.2⟩
  rw [← h1, ← h2, hf.2.2.1]
  linarith [hf.2.2.2.1]

lemma planRaw_step_facts {cards : List Card} {A : ℚ} (hA : 0 ≤ A) :
    ∀ s ∈ (planRaw cards A).steps,
      s.card ∈ cards ∧ 0 < s.card.credit_limit ∧ 0 < s.amount ∧
        s.card.current_balance ≤ s.balance_before ∧
        s.balance_before + s.amount ≤ (1/2) * s.card.credit_limit := by
  intro s hs
  rw [planRaw_steps_def, List.mem_append] at hs
  rcases hs with hs | hs
  · rw [List.mem_map] at hs
    obtain ⟨t, ht, rfl⟩ := hs
    rw [List.mem_filter] at ht
    have hpos : 0 < t.2.2 := by
      have := ht.2
      simpa using this
    have hf := pass1_step_facts hA t ht.1
    have hband := bandHeadroom_pos_bound hpos hf.2.2.2.2
    refine ⟨hf.1, hf.2.1, hpos, le_of_eq hf.2.2.1.symm, ?_⟩
    simp only
    linarith [hf.2.1]
  · rw [List.mem_map] at hs
    obtain ⟨t, ht, rfl⟩ := hs
    rw [List.mem_filter] at ht
    have hpos : 0 < t.2.2 := by
      have := ht.2
      simpa using this
    have hf := pass2_step_facts hA t ht.1
    have hband := bandHeadroom_pos_bound hpos hf.2.2.2.2
    refine ⟨hf.1, hf.2.1, hpos, hf.2.2.1, ?_⟩
    simp only
    linarith

lemma roundMoney_le_add (q : ℚ) : roundMoney q ≤ q + 1/200 := by
  unfold roundMoney
  have h := Int.floor_le (q * 100 + 1/2)
  linarith

lemma roundMoney_nonneg {q : ℚ} (h : 0 ≤ q) : 0 ≤ roundMoney q := by
  unfold roundMoney
  have h2 : (0 : ℤ) ≤ ⌊q * 100 + 1/2⌋ := by
    rw [Int.le_floor]
    push_cast
    linarith
  have h3 : (0 : ℚ) ≤ ((⌊q * 100 + 1/2⌋ : ℤ) : ℚ) := by exact_mod_cast h2
  linarith

lemma roundMoney_eq_zero {q : ℚ} (h0 : 0 ≤ q) (h : q < 1/200) :
    roundMoney q = 0 := by
  unfold roundMoney
  have hlt : ⌊q * 100 + 1/2⌋ < 1 := by
    rw [Int.floor_lt]
    push_cast
    linarith
  have hge : (0 : ℤ) ≤ ⌊q * 100 + 1/2⌋ := by
    rw [Int.le_floor]
    push_cast
    linarith
  have hz : ⌊q * 100 + 1/2⌋ = 0 := by omega
  rw [hz]
  norm_num

lemma roundMoney_mono {a b : ℚ} (h : a ≤ b) : roundMoney a ≤ roundMoney b := by
  unfold roundMoney
  have h1 : ⌊a * 100 + 1/2⌋ ≤ ⌊b * 100 + 1/2⌋ :=
    Int.floor_mono (by linarith)
  have h2 : ((⌊a * 100 + 1/2⌋ : ℤ) : ℚ) ≤ ((⌊b * 100 + 1/2⌋ : ℤ) : ℚ) := by
    exact_mod_cast h1
  linarith

lemma step_safe_rounded {L B b a : ℚ} (hB : 0 ≤ B) (hBb : B ≤ b)
    (ha : 0 < a) (hband : b + a ≤ (1/2) * L) : B + roundMoney a ≤ L := by
  rcases lt_or_le L (1/100) with hcase | hcase
  · have hb0 : 0 ≤ b := le_trans hB hBb
    have hasmall : a < 1/200 := by linarith
    rw [roundMoney_eq_zero ha.le hasmall]
    linarith
  · have := roundMoney_le_add a
    linarith

lemma id_unique {cards : List Card} (h : (cards.map Card.id).Nodup) :
    ∀ c ∈ cards, ∀ c' ∈ cards, c.id = c'.id → c = c' := by
  induction cards with
  | nil => simp
  | cons d rest ih =>
    simp only [List.map_cons, List.nodup_cons] at h
    intro c hc c' hc' he
    rcases List.mem_cons.mp hc with h1 | h1
    · rcases List.mem_cons.mp hc' with h2 | h2
      · rw [h1, h2]
      · exfalso
        apply h.1
        have hm : c'.id ∈ rest.map Card.id := List.mem_map_of_mem Card.id h2
        rwa [← he, h1] at hm
    · rcases List.mem_cons.mp hc' with h2 | h2
      · exfalso
        apply h.1
        have hm : c.id ∈ rest.map Card.id := List.mem_map_of_mem Card.id h1
        rwa [he, h2] at hm
      · exact ih h.2 c h1 c' h2 he

lemma filter_map_sum (l : List (Card × ℚ × ℚ)) (hnn : ∀ s ∈ l, 0 ≤ s.2.2) :
    ((l.filter fun s => decide (0 < s.2.2)).map fun s => s.2.2).sum
      = (l.map fun s => s.2.2).sum := by
  induction l with
  | nil => simp
  | cons x xs ih =>
    have hx := hnn x (List.mem_cons_self x xs)
    have hxs : ∀ s ∈ xs, 0 ≤ s.2.2 := fun s hs => hnn s (List.mem_cons_of_mem x hs)
    by_cases h : 0 < x.2.2
    · simp [List.filter_cons, h, ih hxs]
    · have hz : x.2.2 = 0 := le_antisymm (not_lt.mp h) hx
      simp [List.filter_cons, h, ih hxs, hz]

lemma planRaw_sum (cards : List Card) (A : ℚ) (hA : 0 ≤ A) :
    ((planRaw cards A).steps.map fun s => s.amount).sum
      = min A (totalTwoBandHeadroom cards) := by
  rw [planRaw_steps_def, List.map_append, List.sum_append, List.map_map,
    List.map_map]
  rw [show ((fun s : RawStep => s.amount)
        ∘ fun s : Card × ℚ × ℚ => RawStep.mk s.1 s.2.1 s.2.2 false)
      = fun s : Card × ℚ × ℚ => s.2.2 from rfl,
    show ((fun s : RawStep => s.amount)
        ∘ fun s : Card × ℚ × ℚ => RawStep.mk s.1 s.2.1 s.2.2 true)
      = fun s : Card × ℚ × ℚ => s.2.2 from rfl]
  have hr₁nn : 0 ≤ (pass1 cards A).2 := allocPass_snd_nonneg _ _ _ hA
  rw [filter_map_sum ((pass1 cards A).1)
      fun s hs => (allocPass_amount_bounds _ _ _ hA s hs).1,
    filter_map_sum ((pass2 cards A).1)
      fun s hs => (allocPass_amount_bounds _ _ _ hr₁nn s hs).1]
  have h1 : ((pass1 cards A).1.map fun s => s.2.2).sum + (pass1 cards A).2 = A :=
    allocPass_sum_add_snd _ _ _
  have h2 : ((pass2 cards A).1.map fun s => s.2.2).sum + (pass2 cards A).2
      = (pass1 cards A).2 :=
    allocPass_sum_add_snd _ _ _
  have h3 := pass2_snd_eq cards A hA
  linarith

lemma planRaw_warnings_def (cards : List Card) (A : ℚ) :
    (planRaw cards A).warnings
      = ((cards.filter fun c => c.enrolled && decide (c.credit_limit = 0)).map
          fun c => Warning.skippedZeroLimit c.id)
        ++ (if sortCandidates cards = [] then [Warning.noEligibleCards] else [])
        ++ (if ((pass2 cards A).1.filter fun s => decide (0 < s.2.2)).map
              (fun s => RawStep.mk s.1 s.2.1 s.2.2 true) = ([] : List RawStep)
            then [] else [Warning.exceedsOptimal])
        ++ (if 0 < (pass2 cards A).2 then [Warning.shortfall ((pass2 cards A).2)]
            else []) := rfl

/-- C1: when the requested amount exceeds the total reachable headroom across
both bands, `allocate` still returns a well-formed plan — not an error — with
`feasible = false`, a warning stating the exact shortfall
(`requested_amount − total_allocated`), and all achievable steps populated
(their exact amounts sum to the whole reachable headroom); the frontend
calculator instead reports the `exceedsCredit` error and never requests a
plan when the amount exceeds the total available credit. -/
theorem allocate_partial_allocation_graceful (cards : List Card) (A : ℚ)
    (h0 : 0 < A) (hgt : totalTwoBandHeadroom cards < A) :
    ∃ plan, allocate cards A = Except.ok plan ∧ plan.feasible = false ∧
      Warning.shortfall (A - totalTwoBandHeadroom cards) ∈ plan.warnings ∧
      ((planRaw cards A).steps.map fun s => s.amount).sum
        = totalTwoBandHeadroom cards ∧
      ∀ tac : ℚ, tac < A →
        handleCalculate (some A) tac = FrontendOutcome.exceedsCreditError := by
  have hr₂ : (pass2 cards A).2 = A - totalTwoBandHeadroom cards := by
    rw [pass2_snd_eq cards A h0.le, min_eq_right hgt.le]
  refine ⟨explain (planRaw cards A), allocate_ok h0, ?_, ?_, ?_, ?_⟩
  · rw [explain_feasible, planRaw_feasible_def, hr₂]
    simp only [decide_eq_false_iff_not, not_le]
    linarith
  · rw [explain_warnings, planRaw_warnings_def, hr₂,
      if_pos (by linarith : (0:ℚ) < A - totalTwoBandHeadroom cards)]
    simp [List.mem_append]
  · rw [planRaw_sum cards A h0.le, min_eq_right hgt.le]
  · intro tac htac
    show (if A ≤ 0 then FrontendOutcome.invalidAmountError
      else if tac < A then FrontendOutcome.exceedsCreditError
      else FrontendOutcome.requestPlan A) = FrontendOutcome.exceedsCreditError
    rw [if_neg (not_le.mpr h0), if_pos htac]

theorem allocate_partial_allocation_graceful_witness :
    (0:ℚ) < 5000 ∧ totalTwoBandHeadroom [overCardA, overCardB] < 5000 ∧
      (∃ plan, allocate [overCardA, overCardB] 5000 = Except.ok plan ∧
        plan.feasible = false ∧
        Warning.shortfall (5000 - totalTwoBandHeadroom [overCardA, overCardB])
          ∈ plan.warnings ∧
        ((planRaw [overCardA, overCardB] 5000).steps.map fun s => s.amount).sum
          = totalTwoBandHeadroom [overCardA, overCardB] ∧
        ∀ tac : ℚ, tac < 5000 →
          handleCalculate (some 5000) tac = FrontendOutcome.exceedsCreditError) :=
  ⟨by norm_num,
    by norm_num [totalTwoBandHeadroom, twoBandHeadroom, bandHeadroom,
      eligible, List.filter, min_def, max_def, overCardA, overCardB],
    allocate_partial_allocation_graceful [overCardA, overCardB] 5000
      (by norm_num)
      (by norm_num [totalTwoBandHeadroom, twoBandHeadroom, bandHeadroom,
        eligible, List.filter, min_def, max_def, overCardA, overCardB])⟩

/-- C2: a non-positive requested amount is rejected before any computation —
`allocate` signals `invalidAmount` (never a plan with a coerced amount), and
the frontend `handleCalculate` surfaces the `invalidAmount` validation error
both for a non-numeric (`NaN`) and for a non-positive parsed amount. -/
theorem allocate_rejects_invalid_amount :
    (∀ (cards : List Card) (a : ℚ), a ≤ 0 →
        allocate cards a = Except.error AllocError.invalidAmount) ∧
      (∀ tac : ℚ, handleCalculate none tac = FrontendOutcome.invalidAmountError) ∧
      ∀ (a tac : ℚ), a ≤ 0 →
        handleCalculate (some a) tac = FrontendOutcome.invalidAmountError := by
  refine ⟨fun cards a ha => ?_, fun tac => rfl, fun a tac ha => ?_⟩
  · unfold allocate
    rw [if_pos ha]
  · show (if a ≤ 0 then FrontendOutcome.invalidAmountError
      else if tac < a then FrontendOutcome.exceedsCreditError
      else FrontendOutcome.requestPlan a) = FrontendOutcome.invalidAmountError
    rw [if_pos ha]

theorem allocate_rejects_invalid_amount_witness :
    allocate [] (-5) = Except.error AllocError.invalidAmount ∧
      handleCalculate none 7 = FrontendOutcome.invalidAmountError ∧
      handleCalculate (some 0) 7 = FrontendOutcome.invalidAmountError :=
  ⟨allocate_rejects_invalid_amount.1 [] (-5) (by norm_num),
    allocate_rejects_invalid_amount.2.1 7,
    allocate_rejects_invalid_amount.2.2 0 7 le_rfl⟩

/-- C3: for every non-negative utilization percentage the health
classification is total and follows the spec boundaries — below 10%
underutilized, 10–30% optimal, 30–50% elevated, above 50% high; values above
100% map to high. -/
theorem classify_total_with_boundaries (u : ℚ) (_hu : 0 ≤ u) :
    (u < 10 → classify u = HealthStatus.underutilized) ∧
      (10 ≤ u → u ≤ 30 → classify u = HealthStatus.optimal) ∧
      (30 < u → u ≤ 50 → classify u = HealthStatus.elevated) ∧
      (50 < u → classify u = HealthStatus.high) ∧
      (100 < u → classify u = HealthStatus.high) := by
  refine ⟨fun h => ?_, fun h10 h30 => ?_, fun h30 h50 => ?_,
    fun h50 => ?_, fun h100 => ?_⟩ <;> unfold classify
  · rw [if_pos h]
  · rw [if_neg (by linarith), if_pos h30]
  · rw [if_neg (by linarith), if_neg (by linarith), if_pos h50]
  · rw [if_neg (by linarith), if_neg (by linarith), if_neg (by linarith)]
  · rw [if_neg (by linarith), if_neg (by linarith), if_neg (by linarith)]

theorem classify_total_with_boundaries_witness :
    (0:ℚ) ≤ 20 ∧
      (((20:ℚ) < 10 → classify 20 = HealthStatus.underutilized) ∧
        ((10:ℚ) ≤ 20 → (20:ℚ) ≤ 30 → classify 20 = HealthStatus.optimal) ∧
        ((30:ℚ) < 20 → (20:ℚ) ≤ 50 → classify 20 = HealthStatus.elevated) ∧
        ((50:ℚ) < 20 → classify 20 = HealthStatus.high) ∧
        ((100:ℚ) < 20 → classify 20 = HealthStatus.high)) :=
  ⟨by norm_num, classify_total_with_boundaries 20 (by norm_num)⟩

/-- C5: in any plan returned by `allocate`, every step's charge keeps its card
within the card's true available credit:
`current_balance + amount_to_charge ≤ credit_limit`, regardless of band math
(stated for snapshots with non-negative balances and distinct card ids). -/
theorem allocation_steps_respect_available_credit (cards : List Card) (A : ℚ)
    (hnn : ∀ c ∈ cards, 0 ≤ c.current_balance)
    (hids : (cards.map Card.id).Nodup) :
    ∀ plan, allocate cards A = Except.ok plan →
      ∀ st ∈ plan.steps, ∀ c ∈ cards, c.id = st.card_id →
        c.current_balance + st.amount_to_charge ≤ c.credit_limit := by
  intro plan hok st hst c hc hid
  obtain ⟨hA, hplan⟩ := allocate_ok_inv hok
  subst hplan
  rw [explain_steps, List.mem_map] at hst
  obtain ⟨s, hs, rfl⟩ := hst
  have hf := planRaw_step_facts hA.le s hs
  have hceq : c = s.card := id_unique hids c hc s.card hf.1 hid
  rw [hceq]
  exact step_safe_rounded (hnn s.card hf.1) hf.2.2.2.1 hf.2.2.1 hf.2.2.2.2

theorem allocation_steps_respect_available_credit_witness :
    (∀ c ∈ [scenCardA, scenCardB], 0 ≤ c.current_balance) ∧
      (([scenCardA, scenCardB].map Card.id).Nodup) ∧
      ∀ st ∈ (explain (planRaw [scenCardA, scenCardB] 1500)).steps,
        ∀ c ∈ [scenCardA, scenCardB], c.id = st.card_id →
          c.current_balance + st.amount_to_charge ≤ c.credit_limit :=
  ⟨by decide, by decide,
    allocation_steps_respect_available_credit [scenCardA, scenCardB] 1500
      (by decide) (by decide) (explain (planRaw [scenCardA, scenCardB] 1500))
      (allocate_ok (by norm_num))⟩

/-- C6 (amended): for any amount within the total two-band headroom the plan
is feasible and the planner's exact (pre-rounding) step amounts sum to the
requested amount; the per-step rounded amounts can drift from it by sub-cent
rounding (see the counterexample). -/
theorem feasible_amount_fully_allocated (cards : List Card) (A : ℚ)
    (h0 : 0 < A) (hle : A ≤ totalTwoBandHeadroom cards) :
    ∃ plan, allocate cards A = Except.ok plan ∧ plan.feasible = true ∧
      ((planRaw cards A).steps.map fun s => s.amount).sum = A := by
  refine ⟨explain (planRaw cards A), allocate_ok h0, ?_, ?_⟩
  · rw [explain_feasible, planRaw_feasible_def, pass2_snd_eq cards A h0.le,
      min_eq_left hle]
    simp
  · rw [planRaw_sum cards A h0.le, min_eq_left hle]

theorem feasible_amount_fully_allocated_witness :
    (0:ℚ) < 1500 ∧
      (1500:ℚ) ≤ totalTwoBandHeadroom [scenCardA, scenCardB] ∧
      (∃ plan, allocate [scenCardA, scenCardB] 1500 = Except.ok plan ∧
        plan.feasible = true ∧
        ((planRaw [scenCardA, scenCardB] 1500).steps.map fun s => s.amount).sum
          = 1500) :=
  ⟨by norm_num,
    by norm_num [totalTwoBandHeadroom, twoBandHeadroom, bandHeadroom,
      eligible, List.filter, min_def, max_def, scenCardA, scenCardB],
    feasible_amount_fully_allocated [scenCardA, scenCardB] 1500
      (by norm_num)
      (by norm_num [totalTwoBandHeadroom, twoBandHeadroom, bandHeadroom,
        eligible, List.filter, min_def, max_def, scenCardA, scenCardB])⟩

/-- C6 counterexample: with a card whose optimal-band boundary falls on half a
cent (limit $100.05, balance $0.01) and a $50 card, requesting $40 is within
the two-band headroom and feasible, yet the steps' rounded `amount_to_charge`
figures sum to $40.01 — not the requested $40 — because both $30.005 and
$9.995 round half-up. -/
theorem rounded_step_sum_mismatch :
    (0:ℚ) < 40 ∧ (40:ℚ) ≤ totalTwoBandHeadroom [fracCardA, fracCardB] ∧
      (allocate [fracCardA, fracCardB] 40).toOption.map
          (fun p => ((p.steps.map fun s => s.amount_to_charge).sum, p.feasible))
        = some (4001/100, true) ∧
      (4001/100 : ℚ) ≠ 40 :=
  ⟨by norm_num,
    by norm_num [totalTwoBandHeadroom, twoBandHeadroom, bandHeadroom,
      eligible, List.filter, min_def, max_def, fracCardA, fracCardB],
    by norm_num [allocate, explain, explainStep, planRaw, pass1, pass2,
      allocPass, sortCandidates, eligible, List.insertionSort,
      List.orderedInsert, cardBefore, utilization, bandHeadroom, passCaps,
      fracCardA, fracCardB, roundMoney, min_def, max_def, List.filter,
      Except.toOption],
    by norm_num⟩

/-- C7: the allocation operation is pure and deterministic — it is a function
of the card snapshot and the amount alone, so identical inputs always produce
identical outputs. -/
theorem allocate_deterministic (cards₁ cards₂ : List Card) (a₁ a₂ : ℚ)
    (hc : cards₁ = cards₂) (ha : a₁ = a₂) :
    allocate cards₁ a₁ = allocate cards₂ a₂ := by
  rw [hc, ha]

theorem allocate_deterministic_witness : allocate [] 1 = allocate [] 1 :=
  allocate_deterministic [] [] 1 1 rfl rfl

/-- C8: with the card set fixed, a larger requested amount never decreases
the plan's `total_allocated`, and once a plan is infeasible at some amount it
stays infeasible at every larger amount. -/
theorem total_allocated_monotone (cards : List Card) (X Y : ℚ)
    (hX : 0 < X) (hXY : X < Y) :
    ∀ pX pY, allocate cards X = Except.ok pX → allocate cards Y = Except.ok pY →
      pX.total_allocated ≤ pY.total_allocated ∧
        (pX.feasible = false → pY.feasible = false) := by
  intro pX pY hokX hokY
  have hY : 0 < Y := lt_trans hX hXY
  obtain ⟨_, hpX⟩ := allocate_ok_inv hokX
  obtain ⟨_, hpY⟩ := allocate_ok_inv hokY
  have eX : pX.total_allocated
      = roundMoney (min X (totalTwoBandHeadroom cards)) := by
    rw [hpX, explain_total, planRaw_total_def, pass2_snd_eq cards X hX.le]
    congr 1
    ring
  have eY : pY.total_allocated
      = roundMoney (min Y (totalTwoBandHeadroom cards)) := by
    rw [hpY, explain_total, planRaw_total_def, pass2_snd_eq cards Y hY.le]
    congr 1
    ring
  constructor
  · rw [eX, eY]
    exact roundMoney_mono (min_le_min hXY.le le_rfl)
  · intro hinf
    rw [hpX, explain_feasible, planRaw_feasible_def] at hinf
    rw [decide_eq_false_iff_not, not_le] at hinf
    rw [pass2_snd_eq cards X hX.le] at hinf
    have hHX : totalTwoBandHeadroom cards < X := by
      rcases le_total X (totalTwoBandHeadroom cards) with h | h
      · rw [min_eq_left h] at hinf
        linarith
      · rcases lt_or_eq_of_le h with h' | h'
        · exact h'
        · rw [h', min_self] at hinf
          linarith
    rw [hpY, explain_feasible, planRaw_feasible_def,
      pass2_snd_eq cards Y hY.le, min_eq_right (by linarith)]
    rw [decide_eq_false_iff_not, not_le]
    linarith

theorem total_allocated_monotone_witness :
    (0:ℚ) < 1 ∧ (1:ℚ) < 2 ∧
      ((explain (planRaw [scenCardA, scenCardB] 1)).total_allocated
          ≤ (explain (planRaw [scenCardA, scenCardB] 2)).total_allocated ∧
        ((explain (planRaw [scenCardA, scenCardB] 1)).feasible = false →
          (explain (planRaw [scenCardA, scenCardB] 2)).feasible = false)) :=
  ⟨by norm_num, by norm_num,
    total_allocated_monotone [scenCardA, scenCardB] 1 2 (by norm_num)
      (by norm_num) _ _ (allocate_ok (by norm_num)) (allocate_ok (by norm_num))⟩

/-- C9: the planner's candidate list is ordered by `cardBefore` — credit
limit descending, then utilization ascending, then card id ascending — and,
concretely, with two cards at 0% utilization and limits 10,000 and 5,000, a
$1,000 request is allocated entirely to the 10,000-limit card and the
5,000-limit card receives no step. -/
theorem candidates_sorted_and_priority :
    (∀ cards : List Card, List.Sorted cardBefore (sortCandidates cards)) ∧
      (allocate [prioCardBig, prioCardSmall] 1000).toOption.map
          (fun p => p.steps.map fun s => (s.card_id, s.amount_to_charge))
        = some [(1, 1000)] :=
  ⟨fun cards => List.sorted_insertionSort cardBefore (eligible cards),
    by norm_num [allocate, explain, explainStep, planRaw, pass1, pass2,
      allocPass, sortCandidates, eligible, List.insertionSort,
      List.orderedInsert, cardBefore, utilization, bandHeadroom, passCaps,
      prioCardBig, prioCardSmall, roundMoney, min_def, max_def, List.filter,
      Except.toOption]⟩

/-- C10 counterexample: the card-list widget renders the utilization text
label `{card.utilization_rate.toFixed(1)}%` without clamping, so at a
utilization of 150% the rendered percentage is 150 — above 100 — refuting the
claim that every rendered utilization value is clamped into [0, 100]. -/
theorem utilization_label_unclamped :
    cardListUtilizationLabel 150 = 150 ∧
      ¬ cardListUtilizationLabel 150 ≤ 100 := by
  constructor
  · rfl
  · norm_num [cardListUtilizationLabel]

/-- C10 (amended): the progress-bar widths (`min(utilization, 100)` in both
VCM widgets) never exceed 100, and the dashboard's `formatPercent` clamps its
value into [0, 100]; the raw utilization text labels, however, are rendered
unclamped (see the counterexample). -/
theorem bar_widths_and_formatter_clamped :
    ∀ u : ℚ, virtualCardBarWidth u ≤ 100 ∧ cardListBarWidth u ≤ 100 ∧
      0 ≤ formatPercentValue u ∧ formatPercentValue u ≤ 100 := by
  intro u
  refine ⟨min_le_right _ _, min_le_right _ _, le_max_left _ _, ?_⟩
  unfold formatPercentValue
  exact max_le (by norm_num) (min_le_left _ _)

end VCM
